import Mathlib

/-!
# Verification of the Blackjack chip counter game-state engine

Shallow embedding of `src/app.py`: a per-owner multiplayer scoreboard backed
by two SQLite tables, `players (id, owner_id, name, score)` and
`owner_sessions (owner_id, last_seen_at, game_started, current_player_id)`.
Each Flask route becomes a pure function on an explicit database value.
Machine integers are modelled as `Int`/`Nat` (SQLite integers are arbitrary
precision in the ranges exercised here); the request clock `int(time.time())`
becomes an explicit `now : Int` parameter, and the configured
`GAME_TTL_SECONDS` becomes an explicit `ttl : Int` parameter.  Raw form
fields that the code passes through Python's `int()` are modelled as
`Option Int` (`none` = the string fails to parse); the player-name field
keeps its string form since the code trims and empty-checks it itself.

Each route function returns the PERSISTED database at the end of the
request.  The app opens one `sqlite3` connection per request; writes live in
an implicit transaction and reach the store only at `db.commit()`, and the
Flask teardown closes the connection without committing, rolling back
whatever is pending.  Rejection paths that the code reaches without a
`commit()` therefore return the original database unchanged — the
in-transaction sweep and touch are discarded.  (`update_score` commits
internally, so paths that go through it keep the sweep and touch.)
-/

/-- A row of the `players` table. -/
structure Player where
  id : Nat
  owner : String
  name : String
  score : Int
deriving DecidableEq

/-- A row of the `owner_sessions` table. -/
structure OwnerSession where
  owner : String
  last_seen_at : Int
  game_started : Bool
  current_player_id : Option Nat
deriving DecidableEq

/-- The whole SQLite database: both tables plus the `AUTOINCREMENT`
counter that hands out fresh player ids. -/
structure DB where
  players : List Player
  sessions : List OwnerSession
  next_id : Nat
deriving DecidableEq

/-- The empty database right after `init_db` on a fresh file
(SQLite AUTOINCREMENT starts handing out ids at 1). -/
def DB.empty : DB := ⟨[], [], 1⟩

/-- The typed errors of the specification; each route's `flash`-and-redirect
rejection is mapped to the error kind the spec assigns to that message. -/
inductive AppError where
  | validationError
  | conflictError
  | notFoundError
  | gameInProgressError
  | notStartedError
  | wrongTurnError
  | noPlayersError
deriving DecidableEq

deriving instance DecidableEq for Except

/-- The session-row update performed by `touch_owner_session`'s
`ON CONFLICT ... DO UPDATE SET last_seen_at = excluded.last_seen_at`. -/
def touch_fn (o : String) (now : Int) : OwnerSession → OwnerSession :=
  fun s => if s.owner = o then { s with last_seen_at := now } else s

/-- `touch_owner_session(db, owner_id)`: upsert the last active timestamp. -/
def touch_owner_session (db : DB) (o : String) (now : Int) : DB :=
  if db.sessions.any (fun s => s.owner = o) then
    { db with sessions := db.sessions.map (touch_fn o now) }
  else
    { db with sessions := db.sessions ++ [⟨o, now, false, none⟩] }

/-- `prune_expired_games(db)`: delete player rows whose owner appears in an
expired session (`last_seen_at < cutoff` with `cutoff = now - ttl`), then
delete the expired session rows themselves. -/
def prune_expired_games (db : DB) (now ttl : Int) : DB :=
  let cutoff := now - ttl
  { db with
    players := db.players.filter
      (fun p => !(db.sessions.any (fun s => s.owner = p.owner ∧ s.last_seen_at < cutoff))),
    sessions := db.sessions.filter (fun s => !(s.last_seen_at < cutoff)) }

/-- `get_owner_state(db, owner_id)`: return the owner's session row, creating
a default one (`game_started = 0`, `current_player_id = NULL`) if absent. -/
def get_owner_state (db : DB) (o : String) (now : Int) : OwnerSession × DB :=
  match db.sessions.find? (fun s => s.owner = o) with
  | some s => (s, db)
  | none =>
      let s : OwnerSession := ⟨o, now, false, none⟩
      (s, { db with sessions := db.sessions ++ [s] })

/-- The `ORDER BY id ASC` relation of `get_players_for_owner`. -/
def idLe (a b : Player) : Prop := a.id ≤ b.id

instance : DecidableRel idLe := fun a b => inferInstanceAs (Decidable (a.id ≤ b.id))

instance : IsTotal Player idLe := ⟨fun a b => Nat.le_total a.id b.id⟩

instance : IsTrans Player idLe := ⟨fun _ _ _ h h' => Nat.le_trans h h'⟩

/-- `get_players_for_owner(db, owner_id)`:
`SELECT id, name, score FROM players WHERE owner_id = ? ORDER BY id ASC`. -/
def get_players_for_owner (db : DB) (o : String) : List Player :=
  List.insertionSort idLe (db.players.filter (fun p => p.owner = o))

/-- The leaderboard relation: score descending, then name ascending. -/
def dispLe (a b : Player) : Prop :=
  b.score < a.score ∨ (a.score = b.score ∧ a.name ≤ b.name)

instance : DecidableRel dispLe := fun a b =>
  inferInstanceAs (Decidable (b.score < a.score ∨ (a.score = b.score ∧ a.name ≤ b.name)))

instance : IsTotal Player dispLe := by
  constructor
  intro a b
  unfold dispLe
  rcases lt_trichotomy a.score b.score with h | h | h
  · exact Or.inr (Or.inl h)
  · rcases le_total a.name b.name with hn | hn
    · exact Or.inl (Or.inr ⟨h, hn⟩)
    · exact Or.inr (Or.inr ⟨h.symm, hn⟩)
  · exact Or.inl (Or.inl h)

instance : IsTrans Player dispLe := by
  constructor
  intro a b c hab hbc
  unfold dispLe at *
  rcases hab with h1 | ⟨h1, h1n⟩ <;> rcases hbc with h2 | ⟨h2, h2n⟩
  · exact Or.inl (by omega)
  · exact Or.inl (by omega)
  · exact Or.inl (by omega)
  · exact Or.inr ⟨by omega, h1n.trans h2n⟩

/-- Modelled from the spec: the display ordering of `listPlayers`
("score descending, name ascending, for leaderboard display"). The ordering
is applied by the repository's render layer, whose template files are not
under `src/`, so its definition follows the spec's words. -/
def display_order (players : List Player) : List Player :=
  List.insertionSort dispLe players

/-- `get_next_player_id(players, current_player_id)`: round-robin successor
over the id-ordered player list, with fallback to the first player when the
reference is null or stale. -/
def get_next_player_id (players : List Player) (current_player_id : Option Nat) :
    Option Nat :=
  match players, current_player_id with
  | [], _ => none
  | p :: _, none => some p.id
  | p :: ps, some cid =>
      let player_ids := (p :: ps).map (fun q => q.id)
      if cid ∈ player_ids then
        let current_index := player_ids.indexOf cid
        let next_index := (current_index + 1) % player_ids.length
        some (player_ids.getD next_index 0)
      else
        some p.id

/-- Python's `str.strip()`: drop leading and trailing whitespace.  Defined
structurally over the character list so that the kernel can evaluate it on
concrete inputs (`String.trim`'s `Substring` auxiliaries do not reduce). -/
def strip (s : String) : String :=
  ⟨((s.data.dropWhile Char.isWhitespace).reverse.dropWhile Char.isWhitespace).reverse⟩

/-- `update_score(player_name, delta, owner_id)`: the helper every turn route
calls; it runs the sweep and the touch again, then issues
`UPDATE players SET score = score + ? WHERE name = ? AND owner_id = ?`,
returning whether a row was affected. -/
def update_score (db : DB) (o : String) (player_name : String) (delta : Int)
    (now ttl : Int) : Bool × DB :=
  let db1 := prune_expired_games db now ttl
  let db2 := touch_owner_session db1 o now
  let matched := db2.players.any (fun p => p.name = player_name ∧ p.owner = o)
  let bumped := db2.players.map
    (fun p => if p.name = player_name ∧ p.owner = o
              then { p with score := p.score + delta } else p)
  (matched, { db2 with players := bumped })

/-- The session-row update of `start_game` / `end_game`:
`UPDATE owner_sessions SET game_started = ?, current_player_id = ? WHERE owner_id = ?`. -/
def set_state_fn (o : String) (started : Bool) (current : Option Nat) :
    OwnerSession → OwnerSession :=
  fun s => if s.owner = o
           then { s with game_started := started, current_player_id := current }
           else s

def set_game_state (db : DB) (o : String) (started : Bool) (current : Option Nat) : DB :=
  { db with sessions := db.sessions.map (set_state_fn o started current) }

/-- The session-row update of the two turn routes:
`UPDATE owner_sessions SET current_player_id = ? WHERE owner_id = ?`. -/
def set_current_fn (o : String) (current : Option Nat) : OwnerSession → OwnerSession :=
  fun s => if s.owner = o then { s with current_player_id := current } else s

def set_current_player (db : DB) (o : String) (current : Option Nat) : DB :=
  { db with sessions := db.sessions.map (set_current_fn o current) }

/-- Route `POST /players` (`add_player`): validate the trimmed name and the
starting score, sweep, touch, reject if the game is started, insert the row
(rejecting a duplicate `(owner_id, name)` with the unique-constraint error).
The game-in-progress and duplicate rejections are reached without a commit,
so the transaction (sweep and touch included) is rolled back at teardown and
the persisted store is the original `db`; only the success path commits. -/
def add_player (db : DB) (raw_name : String) (raw_starting_score : Option Int)
    (o : String) (now ttl : Int) : Except AppError Nat × DB :=
  let name := strip raw_name
  if name = "" then (.error .validationError, db)
  else
    match raw_starting_score with
    | none => (.error .validationError, db)
    | some starting_score =>
        let db1 := prune_expired_games db now ttl
        let db2 := touch_owner_session db1 o now
        let (state, db3) := get_owner_state db2 o now
        if state.game_started then (.error .gameInProgressError, db)
        else if db3.players.any (fun p => p.owner = o ∧ p.name = name) then
          (.error .conflictError, db)
        else
          (.ok db3.next_id,
           { db3 with
              players := db3.players ++ [⟨db3.next_id, o, name, starting_score⟩],
              next_id := db3.next_id + 1 })

/-- Route `POST /game/start` (`start_game`): sweep, touch, reject when the
owner has no players, otherwise set `game_started = 1` and point
`current_player_id` at the first player in id order — unconditionally, with
no guard against a game already in progress.  The no-players rejection is
reached without a commit, so its transaction is rolled back and the
persisted store is the original `db`. -/
def start_game (db : DB) (o : String) (now ttl : Int) : Except AppError Nat × DB :=
  let db1 := prune_expired_games db now ttl
  let db2 := touch_owner_session db1 o now
  match get_players_for_owner db2 o with
  | [] => (.error .noPlayersError, db)
  | p :: _ => (.ok p.id, set_game_state db2 o true (some p.id))

/-- Route `POST /game/end` (`end_game`): sweep, touch, then unconditionally
set `game_started = 0, current_player_id = NULL`. -/
def end_game (db : DB) (o : String) (now ttl : Int) : DB :=
  let db1 := prune_expired_games db now ttl
  let db2 := touch_owner_session db1 o now
  set_game_state db2 o false none

/-- Route `POST /players/<id>/update` (`update_score_route`): the
explicit-player turn. Parse the delta, sweep, touch, then reject in order:
game not started, wrong player's turn, player row missing; on success bump
the score via `update_score` and advance `current_player_id`.  All three
rejections are reached without a commit, so their transaction (sweep and
touch included) is rolled back and the persisted store is the original
`db`; the success path commits (inside `update_score` and at the end). -/
def update_score_route (db : DB) (player_id : Nat) (raw_delta : Option Int)
    (o : String) (now ttl : Int) : Except AppError Unit × DB :=
  match raw_delta with
  | none => (.error .validationError, db)
  | some delta =>
      let db1 := prune_expired_games db now ttl
      let db2 := touch_owner_session db1 o now
      let (state, db3) := get_owner_state db2 o now
      if state.game_started = false then (.error .notStartedError, db)
      else if state.current_player_id ≠ some player_id then
        (.error .wrongTurnError, db)
      else
        match db3.players.find? (fun p => p.id = player_id ∧ p.owner = o) with
        | none => (.error .notFoundError, db)
        | some row =>
            let (_, db4) := update_score db3 o row.name delta now ttl
            let players := get_players_for_owner db4 o
            let next := get_next_player_id players (some player_id)
            (.ok (), set_current_player db4 o next)

/-- Route `POST /turn/update` (`update_turn_score`): the current-player turn.
Parse the delta, sweep, touch, reject when not started or no players; resolve
the acting player from `current_player_id` with fallback to the first player;
bump the score via `update_score`; advance `current_player_id` using the
player list read before the update.  The not-started and no-players
rejections commit nothing, so their transaction is rolled back and the
persisted store is the original `db`; the current-player-not-found rejection
occurs after `update_score` has already committed the sweep and touch, so it
persists that intermediate state. -/
def update_turn_score (db : DB) (raw_delta : Option Int) (o : String)
    (now ttl : Int) : Except AppError Unit × DB :=
  match raw_delta with
  | none => (.error .validationError, db)
  | some delta =>
      let db1 := prune_expired_games db now ttl
      let db2 := touch_owner_session db1 o now
      let (state, db3) := get_owner_state db2 o now
      if state.game_started = false then (.error .notStartedError, db)
      else
        match get_players_for_owner db3 o with
        | [] => (.error .noPlayersError, db)
        | p0 :: ps =>
            let players := p0 :: ps
            let current_player :=
              match players.find? (fun p => some p.id = state.current_player_id) with
              | some cp => cp
              | none => p0
            let (updated, db4) :=
              update_score db3 o current_player.name delta now ttl
            if updated then
              let next := get_next_player_id players (some current_player.id)
              (.ok (), set_current_player db4 o next)
            else (.error .notFoundError, db4)

/-- Route `POST /players/<id>/delete` (`delete_player`): sweep, touch, reject
when the game is started or the row is missing, otherwise delete the row.
Both rejections are reached without a commit, so their transaction is rolled
back and the persisted store is the original `db`. -/
def delete_player (db : DB) (player_id : Nat) (o : String) (now ttl : Int) :
    Except AppError Unit × DB :=
  let db1 := prune_expired_games db now ttl
  let db2 := touch_owner_session db1 o now
  let (state, db3) := get_owner_state db2 o now
  if state.game_started then (.error .gameInProgressError, db)
  else
    match db3.players.find? (fun p => p.id = player_id ∧ p.owner = o) with
    | none => (.error .notFoundError, db)
    | some _ =>
        (.ok (),
         { db3 with players :=
            db3.players.filter (fun p => !(p.id = player_id ∧ p.owner = o)) })

/-- Route `POST /reset` (`reset_scores`): sweep, touch, then
`UPDATE players SET score = 0 WHERE owner_id = ?`. -/
def reset_scores (db : DB) (o : String) (now ttl : Int) : DB :=
  let db1 := prune_expired_games db now ttl
  let db2 := touch_owner_session db1 o now
  let zeroed := db2.players.map
    (fun p => if p.owner = o then { p with score := 0 } else p)
  { db2 with players := zeroed }

/-- The owner's session row, if any (`owner_id` is the table's primary key). -/
def owner_session? (db : DB) (o : String) : Option OwnerSession :=
  db.sessions.find? (fun s => s.owner = o)

/-- The owner's player rows in table order. -/
def ownerRows (db : DB) (o : String) : List Player :=
  db.players.filter (fun p => p.owner = o)

/-- The owner's pair of game-state fields, defaulting to
(not started, no current player) when the session row is absent. -/
def gameFields (db : DB) (o : String) : Bool × Option Nat :=
  match owner_session? db o with
  | some s => (s.game_started, s.current_player_id)
  | none => (false, none)

/-- No session row in `db` is expired at time `now` with threshold `ttl`. -/
def no_expired (db : DB) (now ttl : Int) : Prop :=
  ∀ s ∈ db.sessions, now - ttl ≤ s.last_seen_at

instance (db : DB) (now ttl : Int) : Decidable (no_expired db now ttl) :=
  inferInstanceAs (Decidable (∀ s ∈ db.sessions, _))

/-- The structural invariant carried through the reachability induction:
session owners are pairwise distinct (`owner_id` is the table's primary
key), and a not-started session has a null current-player reference. -/
def SInv (db : DB) : Prop :=
  (db.sessions.map (fun s => s.owner)).Nodup ∧
  ∀ s ∈ db.sessions, s.game_started = false → s.current_player_id = none

/-- The engine states reachable from the empty database through the engine's
operations, with arbitrary request parameters and clock values; the TTL is a
configured duration and hence nonnegative. -/
inductive Reach : DB → Prop where
  | base : Reach DB.empty
  | touch (db : DB) (o : String) (now : Int) :
      Reach db → Reach (touch_owner_session db o now)
  | getOrCreate (db : DB) (o : String) (now : Int) :
      Reach db → Reach (get_owner_state db o now).2
  | sweep (db : DB) (now ttl : Int) (h0 : 0 ≤ ttl) :
      Reach db → Reach (prune_expired_games db now ttl)
  | add (db : DB) (nm : String) (sc : Option Int) (o : String) (now ttl : Int)
      (h0 : 0 ≤ ttl) : Reach db → Reach (add_player db nm sc o now ttl).2
  | remove (db : DB) (pid : Nat) (o : String) (now ttl : Int) (h0 : 0 ≤ ttl) :
      Reach db → Reach (delete_player db pid o now ttl).2
  | start (db : DB) (o : String) (now ttl : Int) (h0 : 0 ≤ ttl) :
      Reach db → Reach (start_game db o now ttl).2
  | stop (db : DB) (o : String) (now ttl : Int) (h0 : 0 ≤ ttl) :
      Reach db → Reach (end_game db o now ttl)
  | turnExplicit (db : DB) (pid : Nat) (d : Option Int) (o : String)
      (now ttl : Int) (h0 : 0 ≤ ttl) :
      Reach db → Reach (update_score_route db pid d o now ttl).2
  | turnCurrent (db : DB) (d : Option Int) (o : String) (now ttl : Int)
      (h0 : 0 ≤ ttl) : Reach db → Reach (update_turn_score db d o now ttl).2
  | reset (db : DB) (o : String) (now ttl : Int) (h0 : 0 ≤ ttl) :
      Reach db → Reach (reset_scores db o now ttl)

/-! ## Concrete databases used in counterexamples and witnesses -/

/-- One owner whose inactivity at `now = 100`, `ttl = 30` is exactly `ttl`. -/
def dbBoundary : DB :=
  ⟨[⟨1, "a", "A", 0⟩], [⟨"a", 70, false, none⟩], 2⟩

/-- Owner `a` stale, owner `b` fresh, at `now = 100`, `ttl = 30`. -/
def dbTwoOwners : DB :=
  ⟨[⟨1, "b", "B", 0⟩], [⟨"a", 10, false, none⟩, ⟨"b", 90, false, none⟩], 2⟩

/-- A fresh owner `a` with two players and no game started. -/
def dbStart : DB :=
  ⟨[⟨1, "a", "A", 0⟩, ⟨2, "a", "B", 5⟩], [⟨"a", 90, false, none⟩], 3⟩

/-- An owner whose game is in progress but whose session has expired by
`now = 100`, `ttl = 30` (`last_seen_at = 0`). -/
def dbExpired : DB :=
  ⟨[⟨1, "a", "A", 5⟩], [⟨"a", 0, true, some 1⟩], 2⟩

/-- An owner with a player row but an expired, never-started session at
`now = 100`, `ttl = 30`. -/
def dbExpiredStart : DB :=
  ⟨[⟨1, "c", "C", 0⟩], [⟨"c", 0, false, none⟩], 2⟩

/-- Owner `b` fresh and mid-game, owner `a` expired, at `now = 100`, `ttl = 30`. -/
def dbTwoOwnersStale : DB :=
  ⟨[⟨1, "a", "A", 3⟩, ⟨2, "b", "B", 4⟩],
   [⟨"a", 0, false, none⟩, ⟨"b", 90, true, some 2⟩], 3⟩

/-- Two fresh owners at `now = 100`, `ttl = 30`; owner `b` mid-game. -/
def dbTwoFresh : DB :=
  ⟨[⟨1, "a", "A", 2⟩, ⟨2, "b", "B", 3⟩],
   [⟨"a", 80, false, none⟩, ⟨"b", 90, true, some 2⟩], 3⟩

/-- Three players, game started, current player 1, fresh at `now = 100`. -/
def dbT3a : DB :=
  ⟨[⟨1, "a", "A", 0⟩, ⟨2, "a", "B", 0⟩, ⟨3, "a", "C", 0⟩],
   [⟨"a", 90, true, some 1⟩], 4⟩

/-- Three players, game started, current player 3 (the last), fresh. -/
def dbT3c : DB :=
  ⟨[⟨1, "a", "A", 25⟩, ⟨2, "a", "B", 7⟩, ⟨3, "a", "C", 0⟩],
   [⟨"a", 90, true, some 3⟩], 4⟩

/-- A fresh owner `a` mid-game, current player 1, two players. -/
def dbTurn : DB :=
  ⟨[⟨1, "a", "A", 0⟩, ⟨2, "a", "B", 5⟩], [⟨"a", 90, true, some 1⟩], 3⟩

/-- A fresh owner `a` mid-game whose current-player reference points at a
player id with no row. -/
def dbGhost : DB :=
  ⟨[⟨1, "a", "A", 0⟩], [⟨"a", 90, true, some 9⟩], 2⟩

/-! ## Frame and unfolding lemmas for the primitive operations -/

lemma touch_fn_owner (o : String) (now : Int) (s : OwnerSession) :
    (touch_fn o now s).owner = s.owner := by
  unfold touch_fn; split <;> rfl

lemma set_state_fn_owner (o : String) (b : Bool) (c : Option Nat) (s : OwnerSession) :
    (set_state_fn o b c s).owner = s.owner := by
  unfold set_state_fn; split <;> rfl

lemma set_current_fn_owner (o : String) (c : Option Nat) (s : OwnerSession) :
    (set_current_fn o c s).owner = s.owner := by
  unfold set_current_fn; split <;> rfl

lemma touch_fn_last (o : String) (now : Int) (s : OwnerSession) (h : s.owner = o) :
    touch_fn o now s = { s with last_seen_at := now } := by
  unfold touch_fn; rw [if_pos h]

lemma players_touch (db : DB) (o : String) (now : Int) :
    (touch_owner_session db o now).players = db.players := by
  unfold touch_owner_session; split <;> rfl

lemma next_id_touch (db : DB) (o : String) (now : Int) :
    (touch_owner_session db o now).next_id = db.next_id := by
  unfold touch_owner_session; split <;> rfl

lemma players_set_game_state (db : DB) (o : String) (b : Bool) (c : Option Nat) :
    (set_game_state db o b c).players = db.players := rfl

lemma players_set_current (db : DB) (o : String) (c : Option Nat) :
    (set_current_player db o c).players = db.players := rfl

lemma map_id_of {α : Type} {f : α → α} :
    ∀ {l : List α}, (∀ a ∈ l, f a = a) → l.map f = l
  | [], _ => rfl
  | a :: l, h => by
      simp only [List.map_cons, h a (List.mem_cons_self a l),
        map_id_of (fun b hb => h b (List.mem_cons_of_mem a hb))]

lemma find?_owner_map {g : OwnerSession → OwnerSession}
    (hg : ∀ s, (g s).owner = s.owner) (l : List OwnerSession) (o : String) :
    (l.map g).find? (fun s => s.owner = o) =
      (l.find? (fun s => s.owner = o)).map g := by
  induction l with
  | nil => rfl
  | cons a l ih =>
      by_cases h : a.owner = o
      · simp [List.find?_cons, hg, h]
      · simp [List.find?_cons, hg, h, ih]

lemma any_owner_map {g : OwnerSession → OwnerSession}
    (hg : ∀ s, (g s).owner = s.owner) (l : List OwnerSession) (o : String) :
    (l.map g).any (fun s => s.owner = o) = l.any (fun s => s.owner = o) := by
  induction l with
  | nil => rfl
  | cons a l ih => simp [List.any_cons, hg, ih]

lemma find?_append_none {α : Type} {l₁ : List α} {p : α → Bool}
    (h : l₁.find? p = none) (l₂ : List α) :
    (l₁ ++ l₂).find? p = l₂.find? p := by
  induction l₁ with
  | nil => rfl
  | cons a l ih =>
      cases hp : p a with
      | true => simp [List.find?_cons, hp] at h
      | false =>
          simp only [List.find?_cons, hp, List.cons_append] at h ⊢
          exact ih h

lemma find?_append_some {α : Type} {l₁ : List α} {p : α → Bool} {a : α}
    (h : l₁.find? p = some a) (l₂ : List α) :
    (l₁ ++ l₂).find? p = some a := by
  induction l₁ with
  | nil => simp at h
  | cons b l ih =>
      cases hp : p b with
      | true =>
          simp only [List.find?_cons, hp, List.cons_append] at h ⊢
          exact h
      | false =>
          simp only [List.find?_cons, hp, List.cons_append] at h ⊢
          exact ih h

/-- If no session row is expired, `prune_expired_games` is the identity. -/
lemma prune_eq_self {db : DB} {now ttl : Int} (hno : no_expired db now ttl) :
    prune_expired_games db now ttl = db := by
  obtain ⟨ps, ss, ni⟩ := db
  unfold prune_expired_games
  simp only [DB.mk.injEq, and_true]
  constructor
  · apply List.filter_eq_self.mpr
    intro p _
    simp only [Bool.not_eq_true', List.any_eq_false, decide_eq_true_eq, not_and]
    intro s hs _
    exact not_lt.mpr (hno s hs)
  · apply List.filter_eq_self.mpr
    intro s hs
    simp only [Bool.not_eq_true', decide_eq_true_eq, decide_eq_false_iff_not]
    exact not_lt.mpr (hno s hs)

lemma no_expired_touch {db : DB} {now ttl : Int} (h0 : 0 ≤ ttl)
    (hno : no_expired db now ttl) (o : String) :
    no_expired (touch_owner_session db o now) now ttl := by
  unfold touch_owner_session
  split
  · intro s hs
    simp only [List.mem_map] at hs
    obtain ⟨t, ht, rfl⟩ := hs
    unfold touch_fn
    split
    · simp only; omega
    · exact hno t ht
  · intro s hs
    simp only [List.mem_append, List.mem_singleton] at hs
    rcases hs with h | rfl
    · exact hno s h
    · simp only; omega

lemma owner_session?_touch (db : DB) (o : String) (now : Int) :
    owner_session? (touch_owner_session db o now) o =
      some (match owner_session? db o with
            | some s => { s with last_seen_at := now }
            | none => ⟨o, now, false, none⟩) := by
  unfold touch_owner_session owner_session?
  split
  case isTrue h =>
    rw [find?_owner_map (touch_fn_owner o now)]
    simp only [List.any_eq_true, decide_eq_true_eq] at h
    obtain ⟨t, ht, hto⟩ := h
    have : ∃ s, db.sessions.find? (fun s => s.owner = o) = some s := by
      cases hfind : db.sessions.find? (fun s => decide (s.owner = o)) with
      | some s => exact ⟨s, rfl⟩
      | none =>
          rw [List.find?_eq_none] at hfind
          exact absurd hto (by simpa using hfind t ht)
    obtain ⟨s, hs⟩ := this
    have hso : s.owner = o := by simpa using List.find?_some hs
    rw [hs]
    simp [touch_fn_last o now s hso]
  case isFalse h =>
    have hnone : db.sessions.find? (fun s => s.owner = o) = none := by
      rw [List.find?_eq_none]
      intro x hx
      simp only [List.any_eq_true, not_exists, not_and, decide_eq_true_eq] at h
      simpa using h x hx
    rw [find?_append_none hnone, hnone]
    simp [List.find?_cons]

lemma owner_session?_touch_other {o' o : String} (db : DB) (now : Int) (h : o' ≠ o) :
    owner_session? (touch_owner_session db o now) o' = owner_session? db o' := by
  unfold touch_owner_session owner_session?
  split
  · rw [find?_owner_map (touch_fn_owner o now)]
    cases hf : db.sessions.find? (fun s => s.owner = o') with
    | none => simp
    | some s =>
        have hso : s.owner = o' := by simpa using List.find?_some hf
        have : touch_fn o now s = s := by
          unfold touch_fn; rw [if_neg (by rw [hso]; exact h)]
        simp [this]
  · cases hf : db.sessions.find? (fun s => s.owner = o') with
    | none =>
        rw [find?_append_none hf]
        simp [List.find?_cons, Ne.symm h]
    | some s =>
        rw [find?_append_some hf]

lemma owner_session?_set_state (db : DB) (o : String) (b : Bool) (c : Option Nat) :
    owner_session? (set_game_state db o b c) o =
      (owner_session? db o).map
        (fun s => { s with game_started := b, current_player_id := c }) := by
  unfold set_game_state owner_session?
  rw [find?_owner_map (set_state_fn_owner o b c)]
  cases hf : db.sessions.find? (fun s => s.owner = o) with
  | none => rfl
  | some s =>
      have hso : s.owner = o := by simpa using List.find?_some hf
      simp [set_state_fn, hso]

lemma owner_session?_set_state_other {o' o : String} (db : DB) (b : Bool)
    (c : Option Nat) (h : o' ≠ o) :
    owner_session? (set_game_state db o b c) o' = owner_session? db o' := by
  unfold set_game_state owner_session?
  rw [find?_owner_map (set_state_fn_owner o b c)]
  cases hf : db.sessions.find? (fun s => s.owner = o') with
  | none => rfl
  | some s =>
      have hso : s.owner = o' := by simpa using List.find?_some hf
      simp [set_state_fn, hso, h]

lemma owner_session?_set_current (db : DB) (o : String) (c : Option Nat) :
    owner_session? (set_current_player db o c) o =
      (owner_session? db o).map (fun s => { s with current_player_id := c }) := by
  unfold set_current_player owner_session?
  rw [find?_owner_map (set_current_fn_owner o c)]
  cases hf : db.sessions.find? (fun s => s.owner = o) with
  | none => rfl
  | some s =>
      have hso : s.owner = o := by simpa using List.find?_some hf
      simp [set_current_fn, hso]

lemma owner_session?_set_current_other {o' o : String} (db : DB)
    (c : Option Nat) (h : o' ≠ o) :
    owner_session? (set_current_player db o c) o' = owner_session? db o' := by
  unfold set_current_player owner_session?
  rw [find?_owner_map (set_current_fn_owner o c)]
  cases hf : db.sessions.find? (fun s => s.owner = o') with
  | none => rfl
  | some s =>
      have hso : s.owner = o' := by simpa using List.find?_some hf
      simp [set_current_fn, hso, h]

lemma get_owner_state_present {db : DB} {o : String} {s : OwnerSession} (now : Int)
    (h : owner_session? db o = some s) :
    get_owner_state db o now = (s, db) := by
  unfold owner_session? at h
  unfold get_owner_state
  rw [h]

lemma touch_fn_idem (o : String) (now : Int) (s : OwnerSession) :
    touch_fn o now (touch_fn o now s) = touch_fn o now s := by
  unfold touch_fn
  by_cases h : s.owner = o
  · simp [h]
  · simp [h]

lemma touch_touch (db : DB) (o : String) (now : Int) :
    touch_owner_session (touch_owner_session db o now) o now =
      touch_owner_session db o now := by
  by_cases h : db.sessions.any (fun s => s.owner = o) = true
  · have h1 : touch_owner_session db o now =
        { db with sessions := db.sessions.map (touch_fn o now) } := by
      unfold touch_owner_session; rw [if_pos h]
    have h2 : ((db.sessions.map (touch_fn o now)).any (fun s => s.owner = o)) = true := by
      rw [any_owner_map (touch_fn_owner o now)]; exact h
    rw [h1]
    unfold touch_owner_session
    rw [if_pos h2]
    simp only [List.map_map]
    have : touch_fn o now ∘ touch_fn o now = touch_fn o now :=
      funext (touch_fn_idem o now)
    rw [this]
  · have h1 : touch_owner_session db o now =
        { db with sessions := db.sessions ++ [⟨o, now, false, none⟩] } := by
      unfold touch_owner_session; rw [if_neg h]
    have hall : ∀ s ∈ db.sessions, ¬ s.owner = o := by
      intro s hs
      simp only [List.any_eq_true, not_exists, not_and, decide_eq_true_eq] at h
      simpa using h s hs
    have h2 : ((db.sessions ++ [(⟨o, now, false, none⟩ : OwnerSession)]).any
        (fun s => s.owner = o)) = true := by
      simp [List.any_append]
    rw [h1]
    unfold touch_owner_session
    rw [if_pos h2]
    simp only [List.map_append]
    have hmap : db.sessions.map (touch_fn o now) = db.sessions :=
      map_id_of fun s hs => by unfold touch_fn; rw [if_neg (hall s hs)]
    rw [hmap]
    simp [touch_fn]

/-- With no session expired and the owner's session present, `update_score`
is: bump the matching rows, re-touch the owner, report whether a row matched. -/
lemma update_score_eq {db : DB} {now ttl : Int} (o nm : String) (δ : Int)
    (hno : no_expired db now ttl)
    (hs : db.sessions.any (fun s => s.owner = o) = true) :
    update_score db o nm δ now ttl =
      (db.players.any (fun p => p.name = nm ∧ p.owner = o),
       { players := db.players.map
           (fun p => if p.name = nm ∧ p.owner = o
                     then { p with score := p.score + δ } else p),
         sessions := db.sessions.map (touch_fn o now),
         next_id := db.next_id }) := by
  simp only [update_score]
  rw [prune_eq_self hno]
  unfold touch_owner_session
  rw [if_pos hs]

lemma gpo_congr {db' db : DB} (h : db'.players = db.players) (o : String) :
    get_players_for_owner db' o = get_players_for_owner db o := by
  unfold get_players_for_owner
  rw [h]

lemma gameFields_touch (db : DB) (o : String) (now : Int) :
    gameFields (touch_owner_session db o now) o = gameFields db o := by
  unfold gameFields
  rw [owner_session?_touch]
  cases h : owner_session? db o with
  | none => simp
  | some s => simp

lemma gameFields_set_state_touch (db : DB) (o : String) (now : Int) (b : Bool)
    (c : Option Nat) :
    gameFields (set_game_state (touch_owner_session db o now) o b c) o = (b, c) := by
  unfold gameFields
  rw [owner_session?_set_state, owner_session?_touch]
  simp

lemma owner_session?_congr {db' db : DB} (h : db'.sessions = db.sessions) (o : String) :
    owner_session? db' o = owner_session? db o := by
  unfold owner_session?
  rw [h]

lemma gameFields_congr {db' db : DB} (h : db'.sessions = db.sessions) (o : String) :
    gameFields db' o = gameFields db o := by
  unfold gameFields owner_session?
  rw [h]

lemma filter_owner_map_other {o' o : String} {f : Player → Player}
    (hf : ∀ p, p.owner ≠ o → f p = p) (hfo : ∀ p, (f p).owner = p.owner)
    (h : o' ≠ o) :
    ∀ l : List Player,
      (l.map f).filter (fun p => p.owner = o') = l.filter (fun p => p.owner = o')
  | [] => rfl
  | a :: l => by
      by_cases ha : a.owner = o'
      · have hne : a.owner ≠ o := by rw [ha]; exact h
        rw [List.map_cons, hf a hne, List.filter_cons_of_pos (by simpa using ha),
          List.filter_cons_of_pos (by simpa using ha),
          filter_owner_map_other hf hfo h l]
      · have hfa : (f a).owner ≠ o' := by rw [hfo a]; exact ha
        rw [List.map_cons, List.filter_cons_of_neg (by simpa using hfa),
          List.filter_cons_of_neg (by simpa using ha)]
        exact filter_owner_map_other hf hfo h l

lemma any_owner_of_session {db : DB} {o : String} {s : OwnerSession}
    (h : owner_session? db o = some s) :
    db.sessions.any (fun t => t.owner = o) = true := by
  unfold owner_session? at h
  rw [List.any_eq_true]
  have h2 := List.find?_some h
  exact ⟨s, List.mem_of_find?_eq_some h, h2⟩

/-- The sweep's output contains no expired session: survivors passed the
cutoff test. -/
lemma no_expired_prune (db : DB) (now ttl : Int) :
    no_expired (prune_expired_games db now ttl) now ttl := by
  intro s hs
  unfold prune_expired_games at hs
  simp only [List.mem_filter, Bool.not_eq_true', decide_eq_false_iff_not] at hs
  omega

lemma prune_idem (db : DB) (now ttl : Int) :
    prune_expired_games (prune_expired_games db now ttl) now ttl =
      prune_expired_games db now ttl := by
  apply prune_eq_self
  intro s hs
  unfold prune_expired_games at hs
  simp only [List.mem_filter, Bool.not_eq_true', decide_eq_false_iff_not] at hs
  omega

lemma ownerRows_touch (db : DB) (o' o : String) (now : Int) :
    ownerRows (touch_owner_session db o now) o' = ownerRows db o' := by
  unfold ownerRows
  rw [players_touch]

lemma owner_last_touch (db : DB) (o : String) (now : Int) :
    ∃ s', owner_session? (touch_owner_session db o now) o = some s' ∧
      s'.last_seen_at = now := by
  refine ⟨_, owner_session?_touch db o now, ?_⟩
  cases owner_session? db o <;> rfl

lemma owner_last_of_sessions_eq {db' db : DB} {o : String} {now : Int}
    (h : db'.sessions = db.sessions)
    (hl : ∃ s', owner_session? db o = some s' ∧ s'.last_seen_at = now) :
    ∃ s', owner_session? db' o = some s' ∧ s'.last_seen_at = now := by
  obtain ⟨s', h1, h2⟩ := hl
  exact ⟨s', by rw [owner_session?_congr h, h1], h2⟩

lemma owner_last_set_state {db : DB} {o : String} {now : Int} (b : Bool)
    (c : Option Nat)
    (hl : ∃ s', owner_session? db o = some s' ∧ s'.last_seen_at = now) :
    ∃ s', owner_session? (set_game_state db o b c) o = some s' ∧
      s'.last_seen_at = now := by
  obtain ⟨s', h1, h2⟩ := hl
  exact ⟨{ s' with game_started := b, current_player_id := c },
    by rw [owner_session?_set_state, h1]; rfl, h2⟩

lemma owner_last_set_current {db : DB} {o : String} {now : Int} (c : Option Nat)
    (hl : ∃ s', owner_session? db o = some s' ∧ s'.last_seen_at = now) :
    ∃ s', owner_session? (set_current_player db o c) o = some s' ∧
      s'.last_seen_at = now := by
  obtain ⟨s', h1, h2⟩ := hl
  exact ⟨{ s' with current_player_id := c },
    by rw [owner_session?_set_current, h1]; rfl, h2⟩

lemma map_congr_mem {α β : Type} {f g : α → β} :
    ∀ {l : List α}, (∀ a ∈ l, f a = g a) → l.map f = l.map g
  | [], _ => rfl
  | a :: l, h => by
      simp only [List.map_cons, h a (List.mem_cons_self a l),
        map_congr_mem (fun b hb => h b (List.mem_cons_of_mem a hb))]

/-- In a list whose ids are distinct, searching by a member's id finds
exactly that member. -/
lemma find?_id_unique {q : Player} :
    ∀ {l : List Player}, q ∈ l → ((l.map (fun p => p.id)).Nodup) →
      l.find? (fun p => some p.id = some q.id) = some q
  | [], hmem, _ => by simp at hmem
  | a :: l, hmem, hnd => by
      rw [List.find?_cons]
      by_cases ha : a.id = q.id
      · have haq : a = q := by
          rcases List.mem_cons.mp hmem with rfl | hq'
          · rfl
          · exfalso
            have hqid : q.id ∈ l.map (fun p => p.id) :=
              List.mem_map_of_mem _ hq'
            rw [List.map_cons, List.nodup_cons] at hnd
            exact hnd.1 (ha ▸ hqid)
        subst haq
        simp
      · have hq' : q ∈ l := by
          rcases List.mem_cons.mp hmem with rfl | hq'
          · exact absurd rfl ha
          · exact hq'
        rw [List.map_cons, List.nodup_cons] at hnd
        have hpa : decide (some a.id = some q.id) = false := by
          simp [ha]
        rw [hpa]
        exact find?_id_unique hq' hnd.2

/-! ## Preservation of the session invariant -/

lemma touch_fn_started (o : String) (now : Int) (s : OwnerSession) :
    (touch_fn o now s).game_started = s.game_started := by
  unfold touch_fn; split <;> rfl

lemma touch_fn_current (o : String) (now : Int) (s : OwnerSession) :
    (touch_fn o now s).current_player_id = s.current_player_id := by
  unfold touch_fn; split <;> rfl

lemma owners_map_fn {g : OwnerSession → OwnerSession}
    (hg : ∀ s, (g s).owner = s.owner) (l : List OwnerSession) :
    (l.map g).map (fun s => s.owner) = l.map (fun s => s.owner) := by
  rw [List.map_map]
  exact map_congr_mem (fun s _ => hg s)

lemma sinv_congr {db' db : DB} (h : db'.sessions = db.sessions) (hi : SInv db) :
    SInv db' := by
  unfold SInv at *
  rw [h]
  exact hi

lemma sinv_touch {db : DB} (o : String) (now : Int) (h : SInv db) :
    SInv (touch_owner_session db o now) := by
  obtain ⟨hnd, hinv⟩ := h
  unfold touch_owner_session
  split
  case isTrue hany =>
    constructor
    · rw [owners_map_fn (touch_fn_owner o now)]
      exact hnd
    · intro t ht hts
      obtain ⟨t', ht', rfl⟩ := List.mem_map.mp ht
      rw [touch_fn_started] at hts
      rw [touch_fn_current]
      exact hinv t' ht' hts
  case isFalse hany =>
    constructor
    · rw [List.map_append, List.nodup_append]
      refine ⟨hnd, by simp, ?_⟩
      intro x hx hx2
      simp only [List.map_cons, List.map_nil, List.mem_singleton] at hx2
      obtain ⟨t, ht, hto⟩ := List.mem_map.mp hx
      simp only [List.any_eq_true, not_exists, not_and, decide_eq_true_eq] at hany
      have hne : ¬ t.owner = o := by simpa using hany t ht
      exact hne (hto.trans hx2)
    · intro t ht hts
      rcases List.mem_append.mp ht with h1 | h1
      · exact hinv t h1 hts
      · rw [List.mem_singleton] at h1
        subst h1
        rfl

lemma sinv_prune {db : DB} (now ttl : Int) (h : SInv db) :
    SInv (prune_expired_games db now ttl) := by
  obtain ⟨hnd, hinv⟩ := h
  constructor
  · exact ((List.filter_sublist _).map _).nodup hnd
  · intro t ht hts
    exact hinv t (List.mem_of_mem_filter ht) hts

lemma sinv_get_state {db : DB} (o : String) (now : Int) (h : SInv db) :
    SInv (get_owner_state db o now).2 := by
  unfold get_owner_state
  cases hf : db.sessions.find? (fun s => s.owner = o) with
  | some s => exact h
  | none =>
      rw [List.find?_eq_none] at hf
      constructor
      · rw [List.map_append, List.nodup_append]
        refine ⟨h.1, by simp, ?_⟩
        intro x hx hx2
        simp only [List.map_cons, List.map_nil, List.mem_singleton] at hx2
        obtain ⟨t, ht, hto⟩ := List.mem_map.mp hx
        have hne : ¬ t.owner = o := by simpa using hf t ht
        exact hne (hto.trans hx2)
      · intro t ht hts
        rcases List.mem_append.mp ht with h1 | h1
        · exact h.2 t h1 hts
        · rw [List.mem_singleton] at h1
          subst h1
          rfl

lemma sinv_set_state {db : DB} (o : String) (b : Bool) (c : Option Nat)
    (hbc : b = false → c = none) (h : SInv db) : SInv (set_game_state db o b c) := by
  obtain ⟨hnd, hinv⟩ := h
  constructor
  · show ((db.sessions.map (set_state_fn o b c)).map (fun s => s.owner)).Nodup
    rw [owners_map_fn (set_state_fn_owner o b c)]
    exact hnd
  · intro t ht hts
    replace ht : t ∈ db.sessions.map (set_state_fn o b c) := ht
    obtain ⟨t', ht', rfl⟩ := List.mem_map.mp ht
    unfold set_state_fn at hts ⊢
    by_cases ho : t'.owner = o
    · rw [if_pos ho] at hts ⊢
      exact hbc hts
    · rw [if_neg ho] at hts ⊢
      exact hinv t' ht' hts

lemma sinv_set_current {db : DB} {o : String} {c : Option Nat}
    (h : SInv db)
    (hstart : ∀ t ∈ db.sessions, t.owner = o → t.game_started = true) :
    SInv (set_current_player db o c) := by
  obtain ⟨hnd, hinv⟩ := h
  constructor
  · show ((db.sessions.map (set_current_fn o c)).map (fun s => s.owner)).Nodup
    rw [owners_map_fn (set_current_fn_owner o c)]
    exact hnd
  · intro t ht hts
    replace ht : t ∈ db.sessions.map (set_current_fn o c) := ht
    obtain ⟨t', ht', rfl⟩ := List.mem_map.mp ht
    unfold set_current_fn at hts ⊢
    by_cases ho : t'.owner = o
    · rw [if_pos ho] at hts
      have hst2 := hstart t' ht' ho
      rw [hst2] at hts
      exact absurd hts (by decide)
    · rw [if_neg ho] at hts ⊢
      exact hinv t' ht' hts

lemma started_unique {db : DB} {o : String} {S : OwnerSession}
    (hnd : (db.sessions.map (fun s => s.owner)).Nodup)
    (hf : owner_session? db o = some S) (hstart : S.game_started = true) :
    ∀ t ∈ db.sessions, t.owner = o → t.game_started = true := by
  unfold owner_session? at hf
  intro t ht hto
  have hSmem : S ∈ db.sessions := List.mem_of_find?_eq_some hf
  have hSo : S.owner = o := by simpa using List.find?_some hf
  have : t = S := List.inj_on_of_nodup_map hnd ht hSmem (by rw [hto, hSo])
  rw [this]
  exact hstart

lemma touched_session_shape (db : DB) (o : String) (now : Int) :
    ∃ S ∈ (touch_owner_session db o now).sessions,
      S.owner = o ∧ S.last_seen_at = now := by
  have hT := owner_session?_touch db o now
  unfold owner_session? at hT
  refine ⟨_, List.mem_of_find?_eq_some hT, ?_, ?_⟩
  · have h2 := List.find?_some hT
    simpa using h2
  · cases db.sessions.find? (fun s => s.owner = o) <;> rfl

lemma startedAt_touch_prune {db3 : DB} {o : String} {now ttl : Int} (h0 : 0 ≤ ttl)
    (hmem : ∃ S ∈ db3.sessions, S.owner = o ∧ S.last_seen_at = now)
    (hstart : ∀ t ∈ db3.sessions, t.owner = o → t.game_started = true) :
    ∀ t ∈ (touch_owner_session (prune_expired_games db3 now ttl) o now).sessions,
      t.owner = o → t.game_started = true := by
  obtain ⟨S, hS, hSo, hSl⟩ := hmem
  have hSkeep : S ∈ (prune_expired_games db3 now ttl).sessions := by
    unfold prune_expired_games
    rw [List.mem_filter]
    refine ⟨hS, ?_⟩
    simp only [Bool.not_eq_true', decide_eq_false_iff_not]
    omega
  have hany : ((prune_expired_games db3 now ttl).sessions.any
      (fun s => s.owner = o)) = true := by
    rw [List.any_eq_true]
    exact ⟨S, hSkeep, by simpa using hSo⟩
  unfold touch_owner_session
  rw [if_pos hany]
  intro t ht hto
  obtain ⟨t', ht', rfl⟩ := List.mem_map.mp ht
  rw [touch_fn_started]
  rw [touch_fn_owner] at hto
  exact hstart t' (List.mem_of_mem_filter ht') hto

lemma sinv_add (db : DB) (nm : String) (sc : Option Int) (o : String)
    (now ttl : Int) (h : SInv db) : SInv (add_player db nm sc o now ttl).2 := by
  obtain ⟨S, hT⟩ : ∃ S, owner_session?
      (touch_owner_session (prune_expired_games db now ttl) o now) o = some S :=
    ⟨_, owner_session?_touch _ o now⟩
  have h3 : SInv (touch_owner_session (prune_expired_games db now ttl) o now) :=
    sinv_touch o now (sinv_prune now ttl h)
  by_cases h1 : strip nm = ""
  · simp only [add_player]
    rw [if_pos h1]
    exact h
  · cases sc with
    | none =>
        simp only [add_player]
        rw [if_neg h1]
        exact h
    | some v =>
        simp only [add_player]
        rw [if_neg h1, get_owner_state_present now hT]
        dsimp only
        split
        · exact h
        · split
          · exact h
          · exact sinv_congr rfl h3

lemma sinv_remove (db : DB) (pid : Nat) (o : String) (now ttl : Int)
    (h : SInv db) : SInv (delete_player db pid o now ttl).2 := by
  obtain ⟨S, hT⟩ : ∃ S, owner_session?
      (touch_owner_session (prune_expired_games db now ttl) o now) o = some S :=
    ⟨_, owner_session?_touch _ o now⟩
  have h3 : SInv (touch_owner_session (prune_expired_games db now ttl) o now) :=
    sinv_touch o now (sinv_prune now ttl h)
  simp only [delete_player]
  rw [get_owner_state_present now hT]
  dsimp only
  split
  · exact h
  · split
    · exact h
    · exact sinv_congr rfl h3

lemma sinv_start (db : DB) (o : String) (now ttl : Int) (h : SInv db) :
    SInv (start_game db o now ttl).2 := by
  have h3 : SInv (touch_owner_session (prune_expired_games db now ttl) o now) :=
    sinv_touch o now (sinv_prune now ttl h)
  simp only [start_game]
  split
  · exact h
  · exact sinv_set_state o true _ (fun hb => Bool.noConfusion hb) h3

lemma sinv_stop (db : DB) (o : String) (now ttl : Int) (h : SInv db) :
    SInv (end_game db o now ttl) := by
  have h3 : SInv (touch_owner_session (prune_expired_games db now ttl) o now) :=
    sinv_touch o now (sinv_prune now ttl h)
  simp only [end_game]
  exact sinv_set_state o false none (fun _ => rfl) h3

lemma sinv_reset (db : DB) (o : String) (now ttl : Int) (h : SInv db) :
    SInv (reset_scores db o now ttl) := by
  have h3 : SInv (touch_owner_session (prune_expired_games db now ttl) o now) :=
    sinv_touch o now (sinv_prune now ttl h)
  simp only [reset_scores]
  exact sinv_congr rfl h3

lemma sinv_turn_explicit (db : DB) (pid : Nat) (d : Option Int) (o : String)
    (now ttl : Int) (h0 : 0 ≤ ttl) (h : SInv db) :
    SInv (update_score_route db pid d o now ttl).2 := by
  obtain ⟨S, hT⟩ : ∃ S, owner_session?
      (touch_owner_session (prune_expired_games db now ttl) o now) o = some S :=
    ⟨_, owner_session?_touch _ o now⟩
  have h3 : SInv (touch_owner_session (prune_expired_games db now ttl) o now) :=
    sinv_touch o now (sinv_prune now ttl h)
  cases d with
  | none => exact h
  | some v =>
      simp only [update_score_route]
      rw [get_owner_state_present now hT]
      dsimp only
      by_cases hstS : S.game_started = false
      · rw [if_pos hstS]
        exact h
      · rw [if_neg hstS]
        split
        · exact h
        · split
          · exact h
          · simp only [update_score]
            have hstart3 : ∀ t ∈ (touch_owner_session
                (prune_expired_games db now ttl) o now).sessions,
                t.owner = o → t.game_started = true :=
              started_unique h3.1 hT (by simpa using hstS)
            have hmem3 := touched_session_shape (prune_expired_games db now ttl) o now
            have hstart4 := startedAt_touch_prune h0 hmem3 hstart3
            exact sinv_set_current
              (sinv_congr rfl (sinv_touch o now (sinv_prune now ttl h3))) hstart4

lemma sinv_turn_current (db : DB) (d : Option Int) (o : String)
    (now ttl : Int) (h0 : 0 ≤ ttl) (h : SInv db) :
    SInv (update_turn_score db d o now ttl).2 := by
  obtain ⟨S, hT⟩ : ∃ S, owner_session?
      (touch_owner_session (prune_expired_games db now ttl) o now) o = some S :=
    ⟨_, owner_session?_touch _ o now⟩
  have h3 : SInv (touch_owner_session (prune_expired_games db now ttl) o now) :=
    sinv_touch o now (sinv_prune now ttl h)
  cases d with
  | none => exact h
  | some v =>
      simp only [update_turn_score]
      rw [get_owner_state_present now hT]
      dsimp only
      by_cases hstS : S.game_started = false
      · rw [if_pos hstS]
        exact h
      · rw [if_neg hstS]
        split
        · exact h
        · simp only [update_score]
          have hstart3 : ∀ t ∈ (touch_owner_session
              (prune_expired_games db now ttl) o now).sessions,
              t.owner = o → t.game_started = true :=
            started_unique h3.1 hT (by simpa using hstS)
          have hmem3 := touched_session_shape (prune_expired_games db now ttl) o now
          have hstart4 := startedAt_touch_prune h0 hmem3 hstart3
          split
          · exact sinv_set_current
              (sinv_congr rfl (sinv_touch o now (sinv_prune now ttl h3))) hstart4
          · exact sinv_congr rfl (sinv_touch o now (sinv_prune now ttl h3))

lemma reach_sinv : ∀ {db : DB}, Reach db → SInv db := by
  intro db h
  induction h with
  | base => exact ⟨List.nodup_nil, fun s hs => absurd hs (List.not_mem_nil s)⟩
  | touch db o now _ ih => exact sinv_touch o now ih
  | getOrCreate db o now _ ih => exact sinv_get_state o now ih
  | sweep db now ttl h0 _ ih => exact sinv_prune now ttl ih
  | add db nm sc o now ttl h0 _ ih => exact sinv_add db nm sc o now ttl ih
  | remove db pid o now ttl h0 _ ih => exact sinv_remove db pid o now ttl ih
  | start db o now ttl h0 _ ih => exact sinv_start db o now ttl ih
  | stop db o now ttl h0 _ ih => exact sinv_stop db o now ttl ih
  | turnExplicit db pid d o now ttl h0 _ ih =>
      exact sinv_turn_explicit db pid d o now ttl h0 ih
  | turnCurrent db d o now ttl h0 _ ih =>
      exact sinv_turn_current db d o now ttl h0 ih
  | reset db o now ttl h0 _ ih => exact sinv_reset db o now ttl ih

/-! ## Claim theorems -/

/-- C10: `get_next_player_id` is total and closed over the player list: it
returns `none` iff the list is empty; any id it returns belongs to the list;
and when the reference is null or stale (matches no player) it returns the
first player's id. -/
theorem getNextPlayer_total (players : List Player) (cur : Option Nat) :
    (get_next_player_id players cur = none ↔ players = []) ∧
    (∀ r, get_next_player_id players cur = some r → r ∈ players.map (fun p => p.id)) ∧
    (∀ p0 ps, players = p0 :: ps →
      (cur = none ∨ ∀ q ∈ players, some q.id ≠ cur) →
      get_next_player_id players cur = some p0.id) := by
  refine ⟨?_, ?_, ?_⟩
  · cases players with
    | nil => cases cur <;> simp [get_next_player_id]
    | cons p ps =>
        cases cur with
        | none => simp [get_next_player_id]
        | some cid =>
            simp only [get_next_player_id]
            split <;> simp
  · intro r hr
    cases players with
    | nil => cases cur <;> simp [get_next_player_id] at hr
    | cons p ps =>
        cases cur with
        | none =>
            simp only [get_next_player_id, Option.some.injEq] at hr
            simp [← hr]
        | some cid =>
            simp only [get_next_player_id] at hr
            by_cases hmem : cid ∈ (p :: ps).map (fun q => q.id)
            · rw [if_pos hmem] at hr
              have hlen : 0 < ((p :: ps).map (fun q => q.id)).length := by simp
              have hlt :
                  (List.indexOf cid ((p :: ps).map (fun q => q.id)) + 1) %
                      ((p :: ps).map (fun q => q.id)).length <
                    ((p :: ps).map (fun q => q.id)).length :=
                Nat.mod_lt _ hlen
              rw [List.getD_eq_getElem _ _ hlt] at hr
              obtain rfl := Option.some.inj hr
              exact List.getElem_mem hlt
            · rw [if_neg hmem] at hr
              obtain rfl := Option.some.inj hr
              simp
  · intro p0 ps hps hcur
    subst hps
    cases cur with
    | none => simp [get_next_player_id]
    | some cid =>
        have hnm : cid ∉ (p0 :: ps).map (fun q => q.id) := by
          rcases hcur with h | h
          · simp at h
          · intro hmem
            simp only [List.mem_map] at hmem
            obtain ⟨q, hq, hqid⟩ := hmem
            exact h q hq (by rw [hqid])
        simp only [get_next_player_id]
        rw [if_neg hnm]

/-- C10 witness: on a concrete two-player list with the current reference on
player 1, discharging the stale-reference conjunct at a stale id. -/
theorem getNextPlayer_total_witness :
    get_next_player_id [⟨1, "a", "A", 0⟩, ⟨2, "a", "B", 0⟩] (some 7) =
      some (⟨1, "a", "A", 0⟩ : Player).id :=
  (getNextPlayer_total [⟨1, "a", "A", 0⟩, ⟨2, "a", "B", 0⟩] (some 7)).2.2
    ⟨1, "a", "A", 0⟩ [⟨2, "a", "B", 0⟩] rfl (Or.inr (by decide))

/-- C4 counterexample: an owner whose inactivity is exactly `ttl`
(`last_seen_at = now - ttl`, here `70 = 100 - 30`) satisfies the claim's
deletion condition `now - last_seen_at ≥ ttl`, yet the sweep keeps both its
session row and its player row: the SQL comparison is strict
(`last_seen_at < now - ttl`). -/
theorem sweep_keeps_boundary_owner :
    (100 : Int) - 70 ≥ 30 ∧ prune_expired_games dbBoundary 100 30 = dbBoundary := by
  constructor
  · decide
  · decide

/-- C4 amended: the sweep deletes an owner's session row iff
`now - last_seen_at > ttl` (strictly greater), and a player row iff some
session row of the same owner satisfies that strict test; an owner whose
inactivity is exactly `ttl` is kept. -/
theorem sweep_expiry_strict (db : DB) (now ttl : Int) :
    (∀ s ∈ db.sessions,
      (s ∈ (prune_expired_games db now ttl).sessions ↔ ¬ now - s.last_seen_at > ttl)) ∧
    (∀ p ∈ db.players,
      (p ∈ (prune_expired_games db now ttl).players ↔
        ¬ ∃ s ∈ db.sessions, s.owner = p.owner ∧ now - s.last_seen_at > ttl)) := by
  constructor
  · intro s hs
    unfold prune_expired_games
    simp only [List.mem_filter, Bool.not_eq_true', decide_eq_false_iff_not]
    constructor
    · intro ⟨_, hlt⟩
      omega
    · intro h
      exact ⟨hs, by omega⟩
  · intro p hp
    unfold prune_expired_games
    simp only [List.mem_filter, Bool.not_eq_true', List.any_eq_false,
      decide_eq_true_eq]
    constructor
    · rintro ⟨-, hall⟩ ⟨s, hs, hso, hgt⟩
      exact hall s hs ⟨hso, by omega⟩
    · intro h
      refine ⟨hp, fun s hs => ?_⟩
      rintro ⟨hso, hlt⟩
      exact h ⟨s, hs, hso, by omega⟩

/-- C4 amended witness: at `now = 100`, `ttl = 30`, the fresh owner `b`
(inactivity 10) survives the sweep, session row and player row alike. -/
theorem sweep_expiry_strict_witness :
    ((⟨"b", 90, false, none⟩ : OwnerSession) ∈
        (prune_expired_games dbTwoOwners 100 30).sessions ↔
      ¬ (100 : Int) - 90 > 30) ∧
    ((⟨1, "b", "B", 0⟩ : Player) ∈ (prune_expired_games dbTwoOwners 100 30).players ↔
      ¬ ∃ s ∈ dbTwoOwners.sessions, s.owner = "b" ∧ (100 : Int) - s.last_seen_at > 30) :=
  ⟨(sweep_expiry_strict dbTwoOwners 100 30).1 ⟨"b", 90, false, none⟩ (by decide),
   (sweep_expiry_strict dbTwoOwners 100 30).2 ⟨1, "b", "B", 0⟩ (by decide)⟩

/-- C5: `get_players_for_owner` returns exactly the owner's players, in
insertion order (ascending id), and the display ordering (score descending,
name ascending) is exposed as a permutation of any player list. -/
theorem listPlayers_orderings (db : DB) (o : String) (l : List Player) :
    (∀ p, p ∈ get_players_for_owner db o ↔ p ∈ db.players ∧ p.owner = o) ∧
    List.Sorted idLe (get_players_for_owner db o) ∧
    (display_order l).Perm l ∧
    List.Sorted dispLe (display_order l) := by
  refine ⟨?_, ?_, ?_, ?_⟩
  · intro p
    unfold get_players_for_owner
    rw [List.mem_insertionSort, List.mem_filter]
    simp
  · exact List.sorted_insertionSort idLe _
  · exact List.perm_insertionSort dispLe l
  · exact List.sorted_insertionSort dispLe l

/-- C2 counterexample: an owner whose session has expired but who still has
a player row gets `NoPlayersError` from `start_game` — the in-transaction
sweep empties the visible player list before the count check — instead of a
started game with that player as current; the rejection commits nothing, so
the persisted store is unchanged. -/
theorem startGame_expired_counterexample :
    ownerRows dbExpiredStart "c" = [⟨1, "c", "C", 0⟩] ∧
    start_game dbExpiredStart "c" 100 30 =
      (.error .noPlayersError, dbExpiredStart) := by
  decide

/-- C2 amended: `start_game` keys on the players visible after the sweep.
With zero post-sweep players it fails with `NoPlayersError` and, committing
nothing, leaves the persisted store entirely unchanged — in particular
`game_started` and the current-player reference keep their values.  With at
least one post-sweep player it unconditionally — with no guard against a
game already in progress — sets `game_started = true` and points the
current-player reference at the owner's minimum-id player. -/
theorem startGame_spec (db : DB) (o : String) (now ttl : Int) :
    (get_players_for_owner (prune_expired_games db now ttl) o = [] →
      start_game db o now ttl = (.error .noPlayersError, db)) ∧
    (∀ p ps, get_players_for_owner (prune_expired_games db now ttl) o = p :: ps →
      ∃ db', start_game db o now ttl = (.ok p.id, db') ∧
        db'.players = (prune_expired_games db now ttl).players ∧
        gameFields db' o = (true, some p.id) ∧
        ∀ q ∈ get_players_for_owner (prune_expired_games db now ttl) o,
          p.id ≤ q.id) := by
  have hgpo : get_players_for_owner
      (touch_owner_session (prune_expired_games db now ttl) o now) o =
      get_players_for_owner (prune_expired_games db now ttl) o :=
    gpo_congr (players_touch _ o now) o
  constructor
  · intro h0
    simp only [start_game]
    rw [hgpo, h0]
  · intro p ps hps
    refine ⟨set_game_state
        (touch_owner_session (prune_expired_games db now ttl) o now)
        o true (some p.id), ?_, ?_, ?_, ?_⟩
    · simp only [start_game]
      rw [hgpo, hps]
    · rw [players_set_game_state, players_touch]
    · exact gameFields_set_state_touch _ o now true (some p.id)
    · have hsort : List.Sorted idLe
          (get_players_for_owner (prune_expired_games db now ttl) o) :=
        List.sorted_insertionSort idLe _
      rw [hps] at hsort ⊢
      intro q hq
      rcases List.mem_cons.mp hq with rfl | hq'
      · exact Nat.le_refl _
      · exact List.rel_of_sorted_cons hsort q hq'

/-- C2 amended witness: concrete error case (owner with no players, store
returned unchanged) and success case (two players, minimum id first). -/
theorem startGame_spec_witness :
    (start_game dbStart "c" 100 30 = (.error .noPlayersError, dbStart)) ∧
    (∃ db', start_game dbStart "a" 100 30 =
        (.ok (⟨1, "a", "A", 0⟩ : Player).id, db') ∧
      db'.players = (prune_expired_games dbStart 100 30).players ∧
      gameFields db' "a" = (true, some (⟨1, "a", "A", 0⟩ : Player).id) ∧
      ∀ q ∈ get_players_for_owner (prune_expired_games dbStart 100 30) "a",
        (⟨1, "a", "A", 0⟩ : Player).id ≤ q.id) :=
  ⟨(startGame_spec dbStart "c" 100 30).1 (by decide),
   (startGame_spec dbStart "a" 100 30).2
     ⟨1, "a", "A", 0⟩ [⟨2, "a", "B", 5⟩] (by decide)⟩

/-- C3: the explicit-player turn, keyed on the session state the request
observes (the owner's session row after the in-transaction sweep and touch;
for an owner that has not expired these carry exactly the stored
`game_started` and current-player values).  It fails with `NotStartedError`
when `game_started` is false, with `WrongTurnError` when the named id
differs from the current-player reference, and with `NotFoundError` when the
id matches the reference but no player row is visible.  Each rejection is
reached without a commit, so the persisted store — every score and the
current-player reference included — is exactly unchanged. -/
theorem explicitTurn_errors (db : DB) (o : String) (pid : Nat) (δ : Int)
    (now ttl : Int) (S : OwnerSession)
    (hS : owner_session?
      (touch_owner_session (prune_expired_games db now ttl) o now) o = some S) :
    (S.game_started = false →
      update_score_route db pid (some δ) o now ttl =
        (.error .notStartedError, db)) ∧
    (S.game_started = true → S.current_player_id ≠ some pid →
      update_score_route db pid (some δ) o now ttl =
        (.error .wrongTurnError, db)) ∧
    (S.game_started = true → S.current_player_id = some pid →
      (∀ p ∈ (prune_expired_games db now ttl).players, ¬(p.id = pid ∧ p.owner = o)) →
      update_score_route db pid (some δ) o now ttl =
        (.error .notFoundError, db)) := by
  refine ⟨?_, ?_, ?_⟩
  · intro hst
    simp only [update_score_route]
    rw [get_owner_state_present now hS]
    simp [hst]
  · intro hst hcur
    simp only [update_score_route]
    rw [get_owner_state_present now hS]
    simp [hst, hcur]
  · intro hst hcur hnone
    simp only [update_score_route]
    rw [get_owner_state_present now hS]
    have hfind : (touch_owner_session (prune_expired_games db now ttl) o now).players.find?
        (fun p => decide (p.id = pid) && decide (p.owner = o)) = none := by
      rw [players_touch, List.find?_eq_none]
      intro p hp
      simpa using hnone p hp
    simp [hst, hcur, hfind]

/-- C3 witness: all three rejection cases at concrete inputs, each returning
the store unchanged. -/
theorem explicitTurn_errors_witness :
    (update_score_route dbTurn 2 (some 5) "a" 100 30 =
      (.error .wrongTurnError, dbTurn)) ∧
    (update_score_route dbGhost 9 (some 5) "a" 100 30 =
      (.error .notFoundError, dbGhost)) ∧
    (update_score_route dbStart 1 (some 5) "a" 100 30 =
      (.error .notStartedError, dbStart)) :=
  ⟨(explicitTurn_errors dbTurn "a" 2 5 100 30
      ⟨"a", 100, true, some 1⟩ (by decide)).2.1 (by decide) (by decide),
   (explicitTurn_errors dbGhost "a" 9 5 100 30
      ⟨"a", 100, true, some 9⟩ (by decide)).2.2 (by decide) (by decide) (by decide),
   (explicitTurn_errors dbStart "a" 1 5 100 30
      ⟨"a", 100, false, none⟩ (by decide)).1 (by decide)⟩

/-- C7 counterexample: `reset_scores` does NOT leave every other owner's
state unchanged: the sweep that runs on every request deletes an expired
other owner's player rows and session row. -/
theorem resetScores_counterexample :
    ownerRows dbTwoOwnersStale "a" = [⟨1, "a", "A", 3⟩] ∧
    ownerRows (reset_scores dbTwoOwnersStale "b" 100 30) "a" = [] ∧
    owner_session? (reset_scores dbTwoOwnersStale "b" 100 30) "a" = none := by
  decide

/-- C7 amended: provided no session row is expired (otherwise the sweep that
precedes every operation deletes the expired owners' data), `reset_scores`
zeroes exactly the given owner's scores — preserving ids, names and row order
— and leaves the owner's `game_started` flag and current-player reference, and
every other owner's player rows and session row, unchanged. -/
theorem resetScores_spec (db : DB) (o : String) (now ttl : Int)
    (hno : no_expired db now ttl) :
    (reset_scores db o now ttl).players =
      db.players.map (fun p => if p.owner = o then { p with score := 0 } else p) ∧
    gameFields (reset_scores db o now ttl) o = gameFields db o ∧
    (∀ o', o' ≠ o →
      ownerRows (reset_scores db o now ttl) o' = ownerRows db o' ∧
      owner_session? (reset_scores db o now ttl) o' = owner_session? db o') := by
  have hreset : reset_scores db o now ttl =
      { touch_owner_session db o now with
        players := db.players.map
          (fun p => if p.owner = o then { p with score := 0 } else p) } := by
    simp only [reset_scores]
    rw [prune_eq_self hno, players_touch]
  refine ⟨by rw [hreset], ?_, ?_⟩
  · rw [hreset]
    exact (gameFields_congr rfl o).trans (gameFields_touch db o now)
  · intro o' ho'
    constructor
    · rw [hreset]
      unfold ownerRows
      exact filter_owner_map_other
        (fun p hp => by simp [hp]) (fun p => by by_cases hp : p.owner = o <;> simp [hp])
        ho' db.players
    · rw [hreset]
      exact (owner_session?_congr rfl o').trans (owner_session?_touch_other db now ho')

/-- C7 amended witness: concrete fresh two-owner state; owner `a` reset,
owner `b` untouched. -/
theorem resetScores_spec_witness :
    (reset_scores dbTwoFresh "b" 100 30).players =
      dbTwoFresh.players.map
        (fun p => if p.owner = "b" then { p with score := 0 } else p) ∧
    gameFields (reset_scores dbTwoFresh "b" 100 30) "b" = gameFields dbTwoFresh "b" ∧
    (ownerRows (reset_scores dbTwoFresh "b" 100 30) "a" = ownerRows dbTwoFresh "a" ∧
     owner_session? (reset_scores dbTwoFresh "b" 100 30) "a" =
       owner_session? dbTwoFresh "a") :=
  ⟨(resetScores_spec dbTwoFresh "b" 100 30 (by decide)).1,
   (resetScores_spec dbTwoFresh "b" 100 30 (by decide)).2.1,
   (resetScores_spec dbTwoFresh "b" 100 30 (by decide)).2.2 "a" (by decide)⟩

/-- C8: every typed-error rejection is atomic.  Every rejection the code
reaches without a commit returns the persisted store unchanged (the
transaction — sweep and touch included — is rolled back at teardown); the
one rejection that would follow a commit, the current-player turn's
"player not found", is unreachable for a nonnegative TTL.  Hence whenever
`add_player`, `delete_player`, `start_game`, `update_score_route` or
`update_turn_score` fails with a typed error, the owner's player rows and
game-state fields are exactly as they were before the operation. -/
theorem typedError_atomic (db : DB) (o : String) (now ttl : Int)
    (h0 : 0 ≤ ttl) :
    (∀ nm sc e, (add_player db nm sc o now ttl).1 = .error e →
      ownerRows (add_player db nm sc o now ttl).2 o = ownerRows db o ∧
      gameFields (add_player db nm sc o now ttl).2 o = gameFields db o) ∧
    (∀ pid e, (delete_player db pid o now ttl).1 = .error e →
      ownerRows (delete_player db pid o now ttl).2 o = ownerRows db o ∧
      gameFields (delete_player db pid o now ttl).2 o = gameFields db o) ∧
    (∀ e, (start_game db o now ttl).1 = .error e →
      ownerRows (start_game db o now ttl).2 o = ownerRows db o ∧
      gameFields (start_game db o now ttl).2 o = gameFields db o) ∧
    (∀ pid d e, (update_score_route db pid d o now ttl).1 = .error e →
      ownerRows (update_score_route db pid d o now ttl).2 o = ownerRows db o ∧
      gameFields (update_score_route db pid d o now ttl).2 o = gameFields db o) ∧
    (∀ d e, (update_turn_score db d o now ttl).1 = .error e →
      ownerRows (update_turn_score db d o now ttl).2 o = ownerRows db o ∧
      gameFields (update_turn_score db d o now ttl).2 o = gameFields db o) := by
  obtain ⟨S, hT⟩ : ∃ S, owner_session?
      (touch_owner_session (prune_expired_games db now ttl) o now) o = some S :=
    ⟨_, owner_session?_touch _ o now⟩
  refine ⟨?_, ?_, ?_, ?_, ?_⟩
  · -- add_player
    intro nm sc e
    by_cases h1 : strip nm = ""
    · have heq : add_player db nm sc o now ttl = (.error .validationError, db) := by
        simp only [add_player]
        rw [if_pos h1]
      rw [heq]
      exact fun _ => ⟨rfl, rfl⟩
    · cases sc with
      | none =>
          have heq : add_player db nm none o now ttl = (.error .validationError, db) := by
            simp only [add_player]
            rw [if_neg h1]
          rw [heq]
          exact fun _ => ⟨rfl, rfl⟩
      | some v =>
          by_cases h2 : S.game_started = true
          · have heq : add_player db nm (some v) o now ttl =
                (.error .gameInProgressError, db) := by
              simp only [add_player]
              rw [if_neg h1, get_owner_state_present now hT]
              dsimp only
              rw [if_pos h2]
            rw [heq]
            exact fun _ => ⟨rfl, rfl⟩
          · by_cases h3 : ((touch_owner_session (prune_expired_games db now ttl)
                o now).players.any (fun p => p.owner = o ∧ p.name = strip nm)) = true
            · have heq : add_player db nm (some v) o now ttl =
                  (.error .conflictError, db) := by
                simp only [add_player]
                rw [if_neg h1, get_owner_state_present now hT]
                dsimp only
                rw [if_neg h2, if_pos h3]
              rw [heq]
              exact fun _ => ⟨rfl, rfl⟩
            · have heq : (add_player db nm (some v) o now ttl).1 =
                  .ok (touch_owner_session (prune_expired_games db now ttl)
                    o now).next_id := by
                simp only [add_player]
                rw [if_neg h1, get_owner_state_present now hT]
                dsimp only
                rw [if_neg h2, if_neg h3]
              rw [heq]
              exact fun h => Except.noConfusion h
  · -- delete_player
    intro pid e
    by_cases h2 : S.game_started = true
    · have heq : delete_player db pid o now ttl = (.error .gameInProgressError, db) := by
        simp only [delete_player]
        rw [get_owner_state_present now hT]
        dsimp only
        rw [if_pos h2]
      rw [heq]
      exact fun _ => ⟨rfl, rfl⟩
    · cases hf : (touch_owner_session (prune_expired_games db now ttl)
          o now).players.find? (fun p => p.id = pid ∧ p.owner = o) with
      | none =>
          have heq : delete_player db pid o now ttl = (.error .notFoundError, db) := by
            simp only [delete_player]
            rw [get_owner_state_present now hT]
            dsimp only
            rw [if_neg h2, hf]
          rw [heq]
          exact fun _ => ⟨rfl, rfl⟩
      | some row =>
          have heq : (delete_player db pid o now ttl).1 = .ok () := by
            simp only [delete_player]
            rw [get_owner_state_present now hT]
            dsimp only
            rw [if_neg h2, hf]
          rw [heq]
          exact fun h => Except.noConfusion h
  · -- start_game
    intro e
    cases hg : get_players_for_owner
        (touch_owner_session (prune_expired_games db now ttl) o now) o with
    | nil =>
        have heq : start_game db o now ttl = (.error .noPlayersError, db) := by
          simp only [start_game]
          rw [hg]
        rw [heq]
        exact fun _ => ⟨rfl, rfl⟩
    | cons p ps =>
        have heq : (start_game db o now ttl).1 = .ok p.id := by
          simp only [start_game]
          rw [hg]
        rw [heq]
        exact fun h => Except.noConfusion h
  · -- update_score_route (explicit-player turn)
    intro pid d e
    cases d with
    | none =>
        have heq : update_score_route db pid none o now ttl =
            (.error .validationError, db) := by
          simp only [update_score_route]
        rw [heq]
        exact fun _ => ⟨rfl, rfl⟩
    | some v =>
        by_cases h2 : S.game_started = false
        · have heq : update_score_route db pid (some v) o now ttl =
              (.error .notStartedError, db) := by
            simp only [update_score_route]
            rw [get_owner_state_present now hT]
            dsimp only
            rw [if_pos h2]
          rw [heq]
          exact fun _ => ⟨rfl, rfl⟩
        · by_cases h3 : S.current_player_id ≠ some pid
          · have heq : update_score_route db pid (some v) o now ttl =
                (.error .wrongTurnError, db) := by
              simp only [update_score_route]
              rw [get_owner_state_present now hT]
              dsimp only
              rw [if_neg h2, if_pos h3]
            rw [heq]
            exact fun _ => ⟨rfl, rfl⟩
          · cases hf : (touch_owner_session (prune_expired_games db now ttl)
                o now).players.find? (fun p => p.id = pid ∧ p.owner = o) with
            | none =>
                have heq : update_score_route db pid (some v) o now ttl =
                    (.error .notFoundError, db) := by
                  simp only [update_score_route]
                  rw [get_owner_state_present now hT]
                  dsimp only
                  rw [if_neg h2, if_neg h3, hf]
                rw [heq]
                exact fun _ => ⟨rfl, rfl⟩
            | some row =>
                have heq : (update_score_route db pid (some v) o now ttl).1 =
                    .ok () := by
                  simp only [update_score_route]
                  rw [get_owner_state_present now hT]
                  dsimp only
                  rw [if_neg h2, if_neg h3, hf]
                rw [heq]
                exact fun h => Except.noConfusion h
  · -- update_turn_score (current-player turn)
    intro d e
    cases d with
    | none =>
        have heq : update_turn_score db none o now ttl =
            (.error .validationError, db) := by
          simp only [update_turn_score]
        rw [heq]
        exact fun _ => ⟨rfl, rfl⟩
    | some v =>
        by_cases h2 : S.game_started = false
        · have heq : update_turn_score db (some v) o now ttl =
              (.error .notStartedError, db) := by
            simp only [update_turn_score]
            rw [get_owner_state_present now hT]
            dsimp only
            rw [if_pos h2]
          rw [heq]
          exact fun _ => ⟨rfl, rfl⟩
        · cases hg : get_players_for_owner
              (touch_owner_session (prune_expired_games db now ttl) o now) o with
          | nil =>
              have heq : update_turn_score db (some v) o now ttl =
                  (.error .noPlayersError, db) := by
                simp only [update_turn_score]
                rw [get_owner_state_present now hT]
                dsimp only
                rw [if_neg h2, hg]
              rw [heq]
              exact fun _ => ⟨rfl, rfl⟩
          | cons p0 ps =>
              -- the acting player is drawn from the owner's own list, so the
              -- UPDATE always matches a row and the route succeeds
              have hnoT : no_expired
                  (touch_owner_session (prune_expired_games db now ttl) o now)
                  now ttl :=
                no_expired_touch h0 (no_expired_prune db now ttl) o
              have hanyT : ((touch_owner_session (prune_expired_games db now ttl)
                  o now).sessions.any (fun t => t.owner = o)) = true :=
                any_owner_of_session hT
              set cp : Player :=
                (match (p0 :: ps).find?
                    (fun p => some p.id = S.current_player_id) with
                 | some c => c
                 | none => p0) with hcp
              have hcpmem : cp ∈ (p0 :: ps) := by
                rw [hcp]
                cases hfind : (p0 :: ps).find?
                    (fun p => some p.id = S.current_player_id) with
                | none => exact List.mem_cons_self p0 ps
                | some c => exact List.mem_of_find?_eq_some hfind
              have hcpmem2 : cp ∈ (touch_owner_session
                  (prune_expired_games db now ttl) o now).players ∧
                  cp.owner = o := by
                have hmem : cp ∈ get_players_for_owner
                    (touch_owner_session (prune_expired_games db now ttl) o now) o := by
                  rw [hg]; exact hcpmem
                unfold get_players_for_owner at hmem
                rw [List.mem_insertionSort, List.mem_filter] at hmem
                exact ⟨hmem.1, by simpa using hmem.2⟩
              have hmatched : ((touch_owner_session (prune_expired_games db now ttl)
                  o now).players.any
                  (fun p => p.name = cp.name ∧ p.owner = o)) = true := by
                rw [List.any_eq_true]
                exact ⟨cp, hcpmem2.1, by simp [hcpmem2.2]⟩
              have heq : (update_turn_score db (some v) o now ttl).1 = .ok () := by
                simp only [update_turn_score]
                rw [get_owner_state_present now hT]
                dsimp only
                rw [if_neg h2, hg]
                dsimp only
                rw [update_score_eq o cp.name v hnoT hanyT]
                dsimp only
                rw [if_pos hmatched]
              rw [heq]
              exact fun h => Except.noConfusion h

/-- C8 witness: on a concrete fresh mid-game owner, adding a player is
rejected with `GameInProgressError` and the owner's rows and game fields
are untouched. -/
theorem typedError_atomic_witness :
    ownerRows (add_player dbTurn "C" (some 0) "a" 100 30).2 "a" = ownerRows dbTurn "a" ∧
    gameFields (add_player dbTurn "C" (some 0) "a" 100 30).2 "a" =
      gameFields dbTurn "a" :=
  (typedError_atomic dbTurn "a" 100 30 (by decide)).1 "C" (some 0)
    .gameInProgressError (by decide)

/-- C9 counterexample: on a request rejected for malformed input (a delta
that fails integer parsing), the sweep does NOT run: the request returns the
database unchanged, with the expired owner's rows still present. -/
theorem sweepFirst_counterexample :
    update_turn_score dbExpired none "a" 100 30 = (.error .validationError, dbExpired) ∧
    (∃ s ∈ (update_turn_score dbExpired none "a" 100 30).2.sessions,
      (100 : Int) - s.last_seen_at > 30) := by
  decide

/-- C9 amended: a request with malformed input is rejected before any
database access, so neither the sweep nor the touch runs on it and the store
is returned unchanged; every operation with well-formed input computes its
decision and returned value from the post-sweep state (its result value on
the raw database equals its result value on the pre-swept database); and
whenever a request commits — on every successful operation, on every
`end_game` and `reset_scores` — the sweep and the touch are persisted, the
owner's session row ending with `last_seen_at = now`; a rejection without a
commit leaves the persisted store unchanged. -/
theorem sweepFirst_spec (db : DB) (o nm : String) (pid : Nat) (v : Int)
    (now ttl : Int) :
    (update_score_route db pid none o now ttl = (.error .validationError, db)) ∧
    (update_turn_score db none o now ttl = (.error .validationError, db)) ∧
    (add_player db nm none o now ttl = (.error .validationError, db)) ∧
    ((add_player db nm (some v) o now ttl).1 =
      (add_player (prune_expired_games db now ttl) nm (some v) o now ttl).1) ∧
    ((delete_player db pid o now ttl).1 =
      (delete_player (prune_expired_games db now ttl) pid o now ttl).1) ∧
    ((start_game db o now ttl).1 =
      (start_game (prune_expired_games db now ttl) o now ttl).1) ∧
    ((update_score_route db pid (some v) o now ttl).1 =
      (update_score_route (prune_expired_games db now ttl) pid (some v) o now ttl).1) ∧
    ((update_turn_score db (some v) o now ttl).1 =
      (update_turn_score (prune_expired_games db now ttl) (some v) o now ttl).1) ∧
    (end_game db o now ttl = end_game (prune_expired_games db now ttl) o now ttl) ∧
    (reset_scores db o now ttl = reset_scores (prune_expired_games db now ttl) o now ttl) ∧
    (∃ s', owner_session? (end_game db o now ttl) o = some s' ∧
      s'.last_seen_at = now) ∧
    (∃ s', owner_session? (reset_scores db o now ttl) o = some s' ∧
      s'.last_seen_at = now) ∧
    ((add_player db nm (some v) o now ttl).2 = db ∨
      ∃ s', owner_session? (add_player db nm (some v) o now ttl).2 o = some s' ∧
        s'.last_seen_at = now) ∧
    ((delete_player db pid o now ttl).2 = db ∨
      ∃ s', owner_session? (delete_player db pid o now ttl).2 o = some s' ∧
        s'.last_seen_at = now) ∧
    ((start_game db o now ttl).2 = db ∨
      ∃ s', owner_session? (start_game db o now ttl).2 o = some s' ∧
        s'.last_seen_at = now) ∧
    ((update_score_route db pid (some v) o now ttl).2 = db ∨
      ∃ s', owner_session? (update_score_route db pid (some v) o now ttl).2 o = some s' ∧
        s'.last_seen_at = now) ∧
    ((update_turn_score db (some v) o now ttl).2 = db ∨
      ∃ s', owner_session? (update_turn_score db (some v) o now ttl).2 o = some s' ∧
        s'.last_seen_at = now) := by
  obtain ⟨S, hT⟩ : ∃ S, owner_session?
      (touch_owner_session (prune_expired_games db now ttl) o now) o = some S :=
    ⟨_, owner_session?_touch _ o now⟩
  refine ⟨rfl, rfl, ?_, ?_, ?_, ?_, ?_, ?_, ?_, ?_, ?_, ?_, ?_, ?_, ?_, ?_, ?_⟩
  · -- add_player with an unparseable starting score: no database access
    simp only [add_player]
    by_cases h1 : strip nm = ""
    · rw [if_pos h1]
    · rw [if_neg h1]
  · -- add_player decision computed from the post-sweep state
    simp only [add_player]
    rw [prune_idem]
    by_cases h1 : strip nm = ""
    · rw [if_pos h1, if_pos h1]
    · rw [if_neg h1, if_neg h1, get_owner_state_present now hT]
      dsimp only
      by_cases h2 : S.game_started = true
      · rw [if_pos h2, if_pos h2]
      · rw [if_neg h2, if_neg h2]
        by_cases h3 : ((touch_owner_session (prune_expired_games db now ttl)
            o now).players.any (fun p => p.owner = o ∧ p.name = strip nm)) = true
        · rw [if_pos h3, if_pos h3]
        · rw [if_neg h3, if_neg h3]
  · -- delete_player decision computed from the post-sweep state
    simp only [delete_player]
    rw [prune_idem, get_owner_state_present now hT]
    dsimp only
    by_cases h2 : S.game_started = true
    · rw [if_pos h2, if_pos h2]
    · rw [if_neg h2, if_neg h2]
      cases hf : (touch_owner_session (prune_expired_games db now ttl)
          o now).players.find? (fun p => p.id = pid ∧ p.owner = o) <;> rfl
  · -- start_game decision computed from the post-sweep state
    simp only [start_game]
    rw [prune_idem]
    cases hg : get_players_for_owner
        (touch_owner_session (prune_expired_games db now ttl) o now) o <;> rfl
  · -- explicit-turn decision computed from the post-sweep state
    simp only [update_score_route]
    rw [prune_idem, get_owner_state_present now hT]
    dsimp only
    by_cases h2 : S.game_started = false
    · rw [if_pos h2, if_pos h2]
    · rw [if_neg h2, if_neg h2]
      by_cases h3 : S.current_player_id ≠ some pid
      · rw [if_pos h3, if_pos h3]
      · rw [if_neg h3, if_neg h3]
        cases hf : (touch_owner_session (prune_expired_games db now ttl)
            o now).players.find? (fun p => p.id = pid ∧ p.owner = o) <;> rfl
  · -- current-turn decision computed from the post-sweep state
    simp only [update_turn_score]
    rw [prune_idem, get_owner_state_present now hT]
    dsimp only
    by_cases h2 : S.game_started = false
    · rw [if_pos h2, if_pos h2]
    · rw [if_neg h2, if_neg h2]
      cases hg : get_players_for_owner
          (touch_owner_session (prune_expired_games db now ttl) o now) o <;> rfl
  · -- end_game acts on the pre-swept database
    simp only [end_game]
    rw [prune_idem]
  · -- reset_scores acts on the pre-swept database
    simp only [reset_scores]
    rw [prune_idem]
  · -- end_game persists the touch
    simp only [end_game]
    exact owner_last_set_state false none (owner_last_touch _ o now)
  · -- reset_scores persists the touch
    simp only [reset_scores]
    exact owner_last_of_sessions_eq (by rw [players_touch]) (owner_last_touch _ o now)
  · -- add_player: rollback or committed touch
    simp only [add_player]
    by_cases h1 : strip nm = ""
    · rw [if_pos h1]
      exact Or.inl rfl
    · rw [if_neg h1, get_owner_state_present now hT]
      dsimp only
      split
      · exact Or.inl rfl
      · split
        · exact Or.inl rfl
        · exact Or.inr (owner_last_of_sessions_eq rfl (owner_last_touch _ o now))
  · -- delete_player: rollback or committed touch
    simp only [delete_player]
    rw [get_owner_state_present now hT]
    dsimp only
    split
    · exact Or.inl rfl
    · split
      · exact Or.inl rfl
      · exact Or.inr (owner_last_of_sessions_eq rfl (owner_last_touch _ o now))
  · -- start_game: rollback or committed touch
    simp only [start_game]
    cases hg : get_players_for_owner
        (touch_owner_session (prune_expired_games db now ttl) o now) o with
    | nil => exact Or.inl rfl
    | cons p ps =>
        exact Or.inr (owner_last_set_state true (some p.id) (owner_last_touch _ o now))
  · -- explicit turn: rollback or committed touch
    simp only [update_score_route]
    rw [get_owner_state_present now hT]
    dsimp only
    split
    · exact Or.inl rfl
    · split
      · exact Or.inl rfl
      · split
        · exact Or.inl rfl
        · simp only [update_score]
          exact Or.inr (owner_last_set_current _
            (owner_last_of_sessions_eq rfl (owner_last_touch _ o now)))
  · -- current turn: rollback or committed touch
    simp only [update_turn_score]
    rw [get_owner_state_present now hT]
    dsimp only
    split
    · exact Or.inl rfl
    · split
      · exact Or.inl rfl
      · simp only [update_score]
        split
        · exact Or.inr (owner_last_set_current _
            (owner_last_of_sessions_eq rfl (owner_last_touch _ o now)))
        · exact Or.inr (owner_last_of_sessions_eq rfl (owner_last_touch _ o now))

/-- C1: for a fresh owner whose game is started and whose current-player
reference resolves to player `q`, a current-player-mode `takeTurn` succeeds,
adds the delta to `q`'s score (and only to `q`'s row), and advances the
current-player reference round-robin over the owner's players in ascending
id order: the new reference is the id at index
`(indexOf q.id + 1) % playerCount`, wrapping from the last player to the
first; after three turns with three players the reference is back at the
first player. -/
theorem takeTurn_roundRobin (db : DB) (o : String) (δ now ttl : Int)
    (s : OwnerSession) (q : Player) (h0 : 0 ≤ ttl) (hno : no_expired db now ttl)
    (hs : owner_session? db o = some s)
    (hst : s.game_started = true)
    (hcur : s.current_player_id = some q.id)
    (hq : q ∈ db.players) (hqo : q.owner = o)
    (huniq : ∀ p ∈ db.players, p.owner = o → p.name = q.name → p = q)
    (hnd : ((get_players_for_owner db o).map (fun p => p.id)).Nodup) :
    ∃ db', update_turn_score db (some δ) o now ttl = (.ok (), db') ∧
      db'.players = db.players.map
        (fun p => if p = q then { p with score := p.score + δ } else p) ∧
      gameFields db' o =
        (true, some (((get_players_for_owner db o).map (fun p => p.id)).getD
          ((((get_players_for_owner db o).map (fun p => p.id)).indexOf q.id + 1) %
            ((get_players_for_owner db o).map (fun p => p.id)).length) 0)) := by
  have hs' : db.sessions.find? (fun t => t.owner = o) = some s := hs
  have hso : s.owner = o := by simpa using List.find?_some hs'
  have hT : owner_session? (touch_owner_session db o now) o =
      some { s with last_seen_at := now } := by
    rw [owner_session?_touch, hs]
  have hnoT : no_expired (touch_owner_session db o now) now ttl :=
    no_expired_touch h0 hno o
  have hanyT : ((touch_owner_session db o now).sessions.any
      (fun t => t.owner = o)) = true := any_owner_of_session hT
  have hgpoT : get_players_for_owner (touch_owner_session db o now) o =
      get_players_for_owner db o := gpo_congr (players_touch db o now) o
  have hqgpo : q ∈ get_players_for_owner db o := by
    unfold get_players_for_owner
    rw [List.mem_insertionSort, List.mem_filter]
    exact ⟨hq, by simp [hqo]⟩
  have hmatched : ((touch_owner_session db o now).players.any
      (fun p => p.name = q.name ∧ p.owner = o)) = true := by
    rw [players_touch, List.any_eq_true]
    exact ⟨q, hq, by simp [hqo]⟩
  simp only [update_turn_score]
  rw [prune_eq_self hno, get_owner_state_present now hT]
  dsimp only
  rw [if_neg (by simp [hst]), hgpoT]
  cases hg : get_players_for_owner db o with
  | nil => rw [hg] at hqgpo; simp at hqgpo
  | cons p0 ps =>
      rw [hg] at hqgpo hnd
      dsimp only
      rw [hcur, find?_id_unique hqgpo hnd]
      dsimp only
      rw [update_score_eq o q.name δ hnoT hanyT]
      dsimp only
      rw [if_pos hmatched]
      have hmemid : q.id ∈ (p0 :: ps).map (fun p => p.id) :=
        List.mem_map_of_mem _ hqgpo
      have hnext : get_next_player_id (p0 :: ps) (some q.id) =
          some (((p0 :: ps).map (fun p => p.id)).getD
            ((((p0 :: ps).map (fun p => p.id)).indexOf q.id + 1) %
              ((p0 :: ps).map (fun p => p.id)).length) 0) := by
        simp only [get_next_player_id]
        rw [if_pos hmemid]
      rw [hnext]
      refine ⟨_, rfl, ?_, ?_⟩
      · rw [players_set_current]
        dsimp only
        rw [players_touch]
        exact map_congr_mem (fun p hp => by
          by_cases hpq : p = q
          · subst hpq
            rw [if_pos ⟨rfl, hqo⟩, if_pos rfl]
          · rw [if_neg (fun hc => hpq (huniq p hp hc.2 hc.1)), if_neg hpq])
      · unfold gameFields
        rw [owner_session?_set_current]
        have h4 : owner_session?
            { players := (touch_owner_session db o now).players.map
                (fun p => if p.name = q.name ∧ p.owner = o
                          then { p with score := p.score + δ } else p),
              sessions := (touch_owner_session db o now).sessions.map (touch_fn o now),
              next_id := (touch_owner_session db o now).next_id } o =
            some { s with last_seen_at := now } := by
          unfold owner_session?
          dsimp only
          rw [find?_owner_map (touch_fn_owner o now)]
          have hT' : (touch_owner_session db o now).sessions.find?
              (fun t => t.owner = o) = some { s with last_seen_at := now } := hT
          rw [hT']
          simp [touch_fn, hso]
        rw [h4]
        simp [hst]

/-- C1 witness: one concrete turn with three players advancing player 1 to
player 2, and the wrap-around turn from player 3 back to player 1 — so three
successive turns return to the first player. -/
theorem takeTurn_roundRobin_witness :
    (∃ db', update_turn_score dbT3a (some 25) "a" 100 30 = (.ok (), db') ∧
      db'.players = dbT3a.players.map
        (fun p => if p = (⟨1, "a", "A", 0⟩ : Player)
                  then { p with score := p.score + 25 } else p) ∧
      gameFields db' "a" = (true, some 2)) ∧
    (∃ db', update_turn_score dbT3c (some 0) "a" 100 30 = (.ok (), db') ∧
      db'.players = dbT3c.players.map
        (fun p => if p = (⟨3, "a", "C", 0⟩ : Player)
                  then { p with score := p.score + 0 } else p) ∧
      gameFields db' "a" = (true, some 1)) := by
  constructor
  · obtain ⟨db', h1, h2, h3⟩ :=
      takeTurn_roundRobin dbT3a "a" 25 100 30 ⟨"a", 90, true, some 1⟩
        ⟨1, "a", "A", 0⟩ (by decide) (by decide) (by decide) (by decide)
        (by decide) (by decide) (by decide) (by decide) (by decide)
    exact ⟨db', h1, h2, h3⟩
  · obtain ⟨db', h1, h2, h3⟩ :=
      takeTurn_roundRobin dbT3c "a" 0 100 30 ⟨"a", 90, true, some 3⟩
        ⟨3, "a", "C", 0⟩ (by decide) (by decide) (by decide) (by decide)
        (by decide) (by decide) (by decide) (by decide) (by decide)
    exact ⟨db', h1, h2, h3⟩

/-- C6: in every state reachable from the empty database through the
engine's operations (touch/getOrCreate, sweep, addPlayer, removePlayer,
startGame, endGame, both takeTurn modes, resetScores), a session with
`game_started = false` has a null current-player reference. -/
theorem notStarted_current_null (db : DB) (h : Reach db) :
    ∀ s ∈ db.sessions, s.game_started = false → s.current_player_id = none :=
  (reach_sinv h).2

/-- C6 witness: the invariant evaluated at the concrete session row of the
state reached by adding a player, starting the game, and ending it. -/
theorem notStarted_current_null_witness :
    (⟨"a", 100, false, none⟩ : OwnerSession).current_player_id = none :=
  notStarted_current_null _
    (Reach.stop _ "a" 100 30 (by decide)
      (Reach.start _ "a" 100 30 (by decide)
        (Reach.add DB.empty "A" (some 0) "a" 100 30 (by decide) Reach.base)))
    ⟨"a", 100, false, none⟩ (by decide) (by decide)
